import Mathlib

/-!
Shallow embedding of the XlsxSender home component
(src/src/app/components/home/home.ts).

The component scans a user-picked folder for `.xlsx` files, filters out
files already recorded as handled in a JSON sidecar
(`xlsx-sender-status.json`), and lets the user send (copy to a destination
folder) or discard selected files, recording the outcome in the sidecar.

Host-environment effects (the File System Access API, the folder picker,
per-file copy success, the `handle.getFile()` metadata reads) are modelled
as explicit oracle parameters; JavaScript objects/`Record`s are modelled as
association lists with JavaScript assignment semantics (overwrite in place,
else append); JavaScript number-to-string conversion of integers is
modelled by an explicit decimal rendering.
-/

namespace XlsxSender

/-- String literal `'sent' | 'discarded'` status values (home.ts line 8). -/
inductive FileStatus where
  | sent
  | discarded
deriving DecidableEq, Repr

/-- A `Record<string, FileStatus>` as an association list in insertion
order (JavaScript object semantics). -/
abbrev StatusMap : Type := List (String × FileStatus)

/-- Reading `map[key]` on a JavaScript object: the entry for `key`, if
present (`undefined` becomes `none`). -/
def lookupKey (m : StatusMap) (k : String) : Option FileStatus :=
  (List.find? (fun p => p.1 == k) m).map (fun p => p.2)

/-- Writing `map[key] = v` on a JavaScript object: overwrite the existing
entry in place, otherwise append a new one at the end. -/
def setKey (m : StatusMap) (k : String) (v : FileStatus) : StatusMap :=
  if List.any m (fun p => p.1 == k) then
    List.map (fun p => if p.1 == k then (k, v) else p) m
  else
    m ++ [(k, v)]

/-- The `kind` of a directory entry in the File System Access API. -/
inductive EntryKind where
  | file
  | directory
deriving DecidableEq, Repr

/-- One direct child of the picked folder, as yielded by
`dirHandle.entries()`: its name, kind, and the `size`/`lastModified`
observed by `handle.getFile()`. -/
structure DirEntry where
  name : String
  kind : EntryKind
  size : Nat
  lastModified : Int
deriving DecidableEq, Repr

/-- The `XlsxFile` interface (home.ts lines 10-16); the opaque `handle`
is dropped, its `getFile()` reads are modelled by name-indexed oracles. -/
structure XlsxFile where
  name : String
  size : Nat
  lastModified : Int
  lastSavedBy : Option String
deriving DecidableEq, Repr

/-- The sidecar file `xlsx-sender-status.json` in the source folder:
absent, present but unparsable, or holding a serialized status map. -/
inductive Sidecar where
  | absent
  | malformed
  | stored (m : StatusMap)
deriving DecidableEq

/-- Function `loadStatusMapFromFolder` (home.ts lines 62-74): read and parse the
sidecar; any failure (absent file, parse error) yields the empty map. -/
def loadStatusMapFromFolder : Sidecar → StatusMap
  | Sidecar.absent => []
  | Sidecar.malformed => []
  | Sidecar.stored m => m

/-- Function `saveStatusMapToFolder` (home.ts lines 76-87): serialize the map and
fully overwrite the sidecar (create if absent). -/
def saveStatusMapToFolder (_dir : Sidecar) (m : StatusMap) : Sidecar :=
  Sidecar.stored m

/-! ### Decimal rendering of JavaScript numbers

Function `makeStatusKey` uses a template literal; JavaScript renders the integers
`size` and `lastModified` in decimal. -/

/-- Decimal digits, fuel-driven worker; any fuel at least the number's
leading-digit count gives the exact decimal expansion. -/
def decDigitsGo : Nat → Nat → List Char
  | 0, n => [Nat.digitChar (n % 10)]
  | fuel + 1, n =>
      if n < 10 then [Nat.digitChar n]
      else decDigitsGo fuel (n / 10) ++ [Nat.digitChar (n % 10)]

/-- Decimal digits of a natural number, most significant first. -/
def decDigits (n : Nat) : List Char := decDigitsGo n n

/-- Decimal rendering of an integer, `-` sign first when negative. -/
def intDigits (i : Int) : List Char :=
  if i < 0 then '-' :: decDigits i.natAbs else decDigits i.toNat

/-- String literal for the pipe separator of the identity key. -/
def pipeStr : String := "|"

/-- Function `makeStatusKey` (home.ts lines 58-60): the identity key
name|size|lastModified of a file. -/
def makeStatusKey (name : String) (size : Nat) (lastModified : Int) : String :=
  name ++ pipeStr ++ String.mk (decDigits size) ++ pipeStr ++ String.mk (intDigits lastModified)

/-! ### Folder scan (`pickDirectory`, home.ts lines 113-162) -/

/-- String literal for the target file extension near home.ts line 130. -/
def xlsxExt : String := ".xlsx"

/-- JavaScript `String.prototype.toLowerCase` on the ASCII range, as used
on file names at home.ts line 130. -/
def toLowerStr (s : String) : String :=
  String.mk (s.data.map Char.toLower)

/-- JavaScript `String.prototype.endsWith`: `s` ends with `post`. -/
def endsWithStr (s post : String) : Bool :=
  s.data.drop (s.data.length - post.data.length) == post.data

/-- Ordering used by the sort at home.ts line 152:
`results.sort((b, a) => a.lastModified.getTime() - b.lastModified.getTime())`,
i.e. most recently modified first. -/
def mtimeDescOrder (a b : XlsxFile) : Prop :=
  b.lastModified ≤ a.lastModified

instance : DecidableRel mtimeDescOrder :=
  fun a b => Int.decLe b.lastModified a.lastModified

instance : IsTotal XlsxFile mtimeDescOrder :=
  ⟨fun a b => Int.le_total b.lastModified a.lastModified⟩

instance : IsTrans XlsxFile mtimeDescOrder :=
  ⟨fun _ _ _ hab hbc => le_trans hbc hab⟩

/-- The loop body of `pickDirectory` (home.ts lines 129-149): keep direct
entries that are files with a case-insensitive `.xlsx` name, drop those
whose identity key is already `sent` or `discarded` in the status map,
attach the best-effort metadata; then the sort of line 152 (JavaScript
`Array.prototype.sort` is stable; modelled by a stable insertion sort). -/
def scanFolder (entries : List DirEntry) (statusMap : StatusMap)
    (meta : String → Option String) : List XlsxFile :=
  let results := entries.filterMap (fun e =>
    if e.kind == EntryKind.file && endsWithStr (toLowerStr e.name) xlsxExt then
      let key := makeStatusKey e.name e.size e.lastModified
      if lookupKey statusMap key == some FileStatus.sent
          || lookupKey statusMap key == some FileStatus.discarded then
        none
      else
        some { name := e.name, size := e.size, lastModified := e.lastModified,
               lastSavedBy := meta e.name }
    else none)
  List.insertionSort mtimeDescOrder results

/-- The component's observable state: UI signals plus the origin folder's
sidecar (reached through `originDirHandle`). -/
structure HomeState where
  scanning : Bool
  errorMsg : Option String
  pickedFolderName : Option String
  files : List XlsxFile
  selected : List String
  origin : Option Sidecar
deriving DecidableEq

/-- Default folder display name (home.ts line 122). -/
def defaultFolderName : String := "(pasta selecionada)"

/-- Default error message (home.ts line 157). -/
def defaultPickError : String := "Falha ao acessar a pasta."

/-- How the host environment resolves one `pickDirectory` call: the picker
is cancelled (`AbortError`), fails otherwise, or yields a folder whose
enumeration then fails or succeeds with a list of direct entries. -/
inductive PickOutcome where
  | cancelled
  | pickFailed (msg : Option String)
  | enumFailed (dirName : Option String) (sidecar : Sidecar) (msg : Option String)
  | ok (dirName : Option String) (sidecar : Sidecar) (entries : List DirEntry)

/-- Function `pickDirectory` (home.ts lines 113-162) as a state transition. The
function first clears `errorMsg`, `files`, `pickedFolderName` and the
selection (lines 114-117), then runs the picker and the scan inside
`try`/`catch`; an `AbortError` is swallowed silently, any other error sets
`errorMsg`; `finally` clears `scanning`. -/
def pickDirectory (st : HomeState) (o : PickOutcome)
    (meta : String → Option String) : HomeState :=
  let st0 : HomeState :=
    { st with errorMsg := none, files := [], pickedFolderName := none, selected := [] }
  match o with
  | PickOutcome.cancelled => { st0 with scanning := false }
  | PickOutcome.pickFailed msg =>
      { st0 with errorMsg := some (msg.getD defaultPickError), scanning := false }
  | PickOutcome.enumFailed dirName sc msg =>
      { st0 with origin := some sc,
                 pickedFolderName := some (dirName.getD defaultFolderName),
                 errorMsg := some (msg.getD defaultPickError),
                 scanning := false }
  | PickOutcome.ok dirName sc entries =>
      { st0 with origin := some sc,
                 pickedFolderName := some (dirName.getD defaultFolderName),
                 files := scanFolder entries (loadStatusMapFromFolder sc) meta,
                 selected := [],
                 scanning := false }

/-! ### Send and discard (home.ts lines 202-266 and 269-303) -/

/-- Identity key of a list item at send/discard time: the code re-reads
`item.handle.getFile()` (home.ts lines 248, 290), modelled by the oracle
`meta` giving the current (size, lastModified) per file name. -/
def keyFor (meta : String → Nat × Int) (f : XlsxFile) : String :=
  makeStatusKey f.name (meta f.name).1 (meta f.name).2

/-- The status-marking loop shared by `sendFiles` (lines 247-251) and
`discardFiles` (lines 289-293): set each selected item's key to `v`. -/
def markStatuses (m : StatusMap) (items : List XlsxFile)
    (meta : String → Nat × Int) (v : FileStatus) : StatusMap :=
  items.foldl (fun acc item => setKey acc (keyFor meta item) v) m

/-- The copy loop of `sendFiles` (home.ts lines 227-237): per-item copy,
counting successes and failures; every item is attempted regardless of
earlier failures. Returns (ok, fail, attempted names in order). -/
def copyLoop (copyOk : String → Bool) (items : List XlsxFile) : Nat × Nat × List String :=
  items.foldl
    (fun acc item =>
      if copyOk item.name then (acc.1 + 1, acc.2.1, acc.2.2 ++ [item.name])
      else (acc.1, acc.2.1 + 1, acc.2.2 ++ [item.name]))
    (0, 0, [])

/-- Result of `showDirectoryPicker` for the destination folder. -/
inductive DestPick where
  | ok
  | abortError
  | otherError
deriving DecidableEq

/-- Result of `destDirHandle.requestPermission?.({mode:'readwrite'})`:
granted, prompt, denied, or the method being unavailable (`undefined`). -/
inductive PermResult where
  | granted
  | prompt
  | denied
  | unavailable
deriving DecidableEq

/-- Host-environment oracles for one `sendFiles` call. -/
structure SendEnv where
  destPick : DestPick
  perm : PermResult
  copyOk : String → Bool
  meta : String → Nat × Int
  saveOk : Bool

/-- How a `sendFiles` call ended, as observable through the console:
early returns, the shared generic `catch` (home.ts lines 259-265), the
permission-denied return, or normal completion. -/
inductive SendOutcome where
  | noSelection
  | noMatch
  | cancelled
  | errorCaught
  | permDenied
  | completed
deriving DecidableEq

/-- What one `sendFiles` call reported: its outcome, the logged success
and failure counts, and the names whose copy was attempted (a destination
write happens only for these). -/
structure SendReport where
  outcome : SendOutcome
  ok : Nat
  fail : Nat
  attempted : List String
deriving DecidableEq

/-- Function `sendFiles` (home.ts lines 202-266) as a state transition. Control
flow: return on empty selection (line 205) or empty match (line 211); pick
the destination (line 217, `AbortError` → caught at line 260); abort if
permission is denied (line 222); copy each selected item, counting
successes/failures (lines 227-237); if an origin folder is known, load the
sidecar, mark every selected item `sent` and save (lines 243-253) — a save
failure throws into the generic catch, skipping the list update; finally
remove the selected names from the list and clear the selection
(lines 256-257). -/
def sendFiles (st : HomeState) (env : SendEnv) : HomeState × SendReport :=
  let selectedNames := st.selected
  if selectedNames.isEmpty then (st, ⟨SendOutcome.noSelection, 0, 0, []⟩)
  else
    let selected := st.files.filter (fun f => selectedNames.contains f.name)
    if selected.isEmpty then (st, ⟨SendOutcome.noMatch, 0, 0, []⟩)
    else
      match env.destPick with
      | DestPick.abortError => (st, ⟨SendOutcome.cancelled, 0, 0, []⟩)
      | DestPick.otherError => (st, ⟨SendOutcome.errorCaught, 0, 0, []⟩)
      | DestPick.ok =>
        if env.perm = PermResult.denied then (st, ⟨SendOutcome.permDenied, 0, 0, []⟩)
        else
          let res := copyLoop env.copyOk selected
          match st.origin with
          | none =>
              ({ st with files := st.files.filter (fun f => !selectedNames.contains f.name),
                         selected := [] },
               ⟨SendOutcome.completed, res.1, res.2.1, res.2.2⟩)
          | some sc =>
              let m' := markStatuses (loadStatusMapFromFolder sc) selected env.meta FileStatus.sent
              if env.saveOk then
                ({ st with origin := some (saveStatusMapToFolder sc m'),
                           files := st.files.filter (fun f => !selectedNames.contains f.name),
                           selected := [] },
                 ⟨SendOutcome.completed, res.1, res.2.1, res.2.2⟩)
              else (st, ⟨SendOutcome.errorCaught, res.1, res.2.1, res.2.2⟩)

/-- Host-environment oracles for one `discardFiles` call. -/
structure DiscardEnv where
  meta : String → Nat × Int
  saveOk : Bool

/-- How a `discardFiles` call ended, as observable through the console. -/
inductive DiscardOutcome where
  | noSelection
  | noMatch
  | errorCaught
  | completed
deriving DecidableEq

/-- Function `discardFiles` (home.ts lines 269-303) as a state transition: same
shape as `sendFiles` without the destination pick and the copy loop; the
selected items' keys are marked `discarded` in the sidecar; a save failure
throws into the generic catch (line 300), skipping the list update. -/
def discardFiles (st : HomeState) (env : DiscardEnv) : HomeState × DiscardOutcome :=
  let selectedNames := st.selected
  if selectedNames.isEmpty then (st, DiscardOutcome.noSelection)
  else
    let selected := st.files.filter (fun f => selectedNames.contains f.name)
    if selected.isEmpty then (st, DiscardOutcome.noMatch)
    else
      match st.origin with
      | none =>
          ({ st with files := st.files.filter (fun f => !selectedNames.contains f.name),
                     selected := [] },
           DiscardOutcome.completed)
      | some sc =>
          let m' := markStatuses (loadStatusMapFromFolder sc) selected env.meta FileStatus.discarded
          if env.saveOk then
            ({ st with origin := some (saveStatusMapToFolder sc m'),
                       files := st.files.filter (fun f => !selectedNames.contains f.name),
                       selected := [] },
             DiscardOutcome.completed)
          else (st, DiscardOutcome.errorCaught)

/-- The `selected` list at home.ts lines 210/277: the list items whose name is in
the current selection. -/
def selectedItems (st : HomeState) : List XlsxFile :=
  st.files.filter (fun f => st.selected.contains f.name)

/-! ### Concrete fixtures used by witnesses and counterexamples -/

/-- Concrete file name fixture. -/
def fnA : String := "a.xlsx"

/-- Concrete file name fixture. -/
def fnB : String := "b.xlsx"

/-- Concrete file name fixture. -/
def fnC : String := "c.xlsx"

/-- Epoch milliseconds of 2023-01-01T00:00:00Z. -/
def tJan2023 : Int := 1672531200000

/-- Epoch milliseconds of 2023-06-01T00:00:00Z. -/
def tJun2023 : Int := 1685577600000

/-- Epoch milliseconds of 2022-01-01T00:00:00Z. -/
def tJan2022 : Int := 1640995200000

/-- Concrete list entry fixture. -/
def xA : XlsxFile := ⟨fnA, 100, tJan2023, none⟩

/-- Concrete list entry fixture. -/
def xB : XlsxFile := ⟨fnB, 200, tJun2023, none⟩

/-- Metadata oracle finding no last-saved-by author. -/
def metaNone : String → Option String := fun _ => none

/-- Current (size, lastModified) oracle matching `xA`/`xB`. -/
def curMeta : String → Nat × Int :=
  fun s => if s == fnA then (100, tJan2023) else (200, tJun2023)

/-- A component state with one scanned, selected file. -/
def stOne : HomeState :=
  { scanning := false, errorMsg := none, pickedFolderName := some fnC,
    files := [xA], selected := [fnA], origin := some Sidecar.absent }

/-- A component state with two scanned, selected files. -/
def stTwo : HomeState :=
  { scanning := false, errorMsg := none, pickedFolderName := some fnC,
    files := [xA, xB], selected := [fnA, fnB], origin := some Sidecar.absent }

/-- Send environment where only `a.xlsx` copies successfully. -/
def envSendHalf : SendEnv :=
  { destPick := DestPick.ok, perm := PermResult.granted,
    copyOk := fun s => s == fnA, meta := curMeta, saveOk := true }

/-- Send environment where every copy succeeds but the sidecar save fails. -/
def envSendSaveFail : SendEnv :=
  { destPick := DestPick.ok, perm := PermResult.granted,
    copyOk := fun _ => true, meta := curMeta, saveOk := false }

/-- Discard environment whose sidecar save fails. -/
def envDiscSaveFail : DiscardEnv := { meta := curMeta, saveOk := false }

/-- Discard environment whose sidecar save succeeds. -/
def envDiscOk : DiscardEnv := { meta := curMeta, saveOk := true }

/-- Send environment where destination write permission is denied. -/
def envSendDenied : SendEnv :=
  { destPick := DestPick.ok, perm := PermResult.denied,
    copyOk := fun _ => true, meta := curMeta, saveOk := true }

/-! ### Lemmas about the decimal rendering -/

theorem digitChar_toNat (d : Nat) (h : d < 10) : (Nat.digitChar d).toNat = 48 + d := by
  interval_cases d <;> rfl

theorem decDigitsGo_range (fuel : Nat) :
    ∀ n c, c ∈ decDigitsGo fuel n → 48 ≤ c.toNat ∧ c.toNat ≤ 57 := by
  induction fuel with
  | zero =>
    intro n c hc
    simp only [decDigitsGo, List.mem_singleton] at hc
    subst hc
    rw [digitChar_toNat (n % 10) (Nat.mod_lt n (by omega))]
    omega
  | succ fuel ih =>
    intro n c hc
    by_cases h : n < 10
    · simp only [decDigitsGo, if_pos h, List.mem_singleton] at hc
      subst hc
      rw [digitChar_toNat n h]
      omega
    · simp only [decDigitsGo, if_neg h, List.mem_append, List.mem_singleton] at hc
      rcases hc with hc | hc
      · exact ih _ _ hc
      · subst hc
        rw [digitChar_toNat (n % 10) (Nat.mod_lt n (by omega))]
        omega

theorem decDigitsGo_val (fuel : Nat) :
    ∀ n a, n ≤ fuel →
      List.foldl (fun a c => 10 * a + (c.toNat - 48)) a (decDigitsGo fuel n)
        = a * 10 ^ (decDigitsGo fuel n).length + n := by
  induction fuel with
  | zero =>
    intro n a hn
    interval_cases n
    simp [decDigitsGo, digitChar_toNat 0 (by omega)]
    ring
  | succ fuel ih =>
    intro n a hn
    by_cases h : n < 10
    · simp [decDigitsGo, if_pos h, digitChar_toNat n h]
      omega
    · have hdiv : n / 10 < n := Nat.div_lt_self (by omega) (by omega)
      have hf : n / 10 ≤ fuel := by omega
      have hmod : 10 * (n / 10) + n % 10 = n := Nat.div_add_mod n 10
      simp only [decDigitsGo, if_neg h, List.foldl_append, List.length_append,
        List.foldl_cons, List.foldl_nil, List.length_singleton]
      rw [ih (n / 10) a hf]
      rw [digitChar_toNat (n % 10) (Nat.mod_lt n (by omega))]
      calc 10 * (a * 10 ^ (decDigitsGo fuel (n / 10)).length + n / 10) + (48 + n % 10 - 48)
          = a * (10 ^ (decDigitsGo fuel (n / 10)).length * 10)
              + (10 * (n / 10) + n % 10) := by
            have : 48 + n % 10 - 48 = n % 10 := by omega
            rw [this]; ring
        _ = a * 10 ^ ((decDigitsGo fuel (n / 10)).length + 1) + n := by
            rw [pow_succ, hmod]

theorem decDigits_val (n : Nat) :
    List.foldl (fun a c => 10 * a + (c.toNat - 48)) 0 (decDigits n) = n := by
  have h := decDigitsGo_val n n 0 le_rfl
  simpa [decDigits] using h

theorem decDigits_inj {m n : Nat} (h : decDigits m = decDigits n) : m = n := by
  have hm := decDigits_val m
  have hn := decDigits_val n
  rw [h] at hm
  omega

theorem decDigits_not_pipe {n : Nat} {c : Char} (hc : c ∈ decDigits n) : c ≠ '|' := by
  intro he
  have hr := decDigitsGo_range n n c hc
  rw [he] at hr
  exact absurd hr.2 (by decide)

theorem decDigits_not_dash {n : Nat} {c : Char} (hc : c ∈ decDigits n) : c ≠ '-' := by
  intro he
  have hr := decDigitsGo_range n n c hc
  rw [he] at hr
  exact absurd hr.1 (by decide)

theorem decDigits_ne_dash_cons (n : Nat) (l : List Char) : decDigits n ≠ '-' :: l := by
  intro he
  have hmem : '-' ∈ decDigits n := by rw [he]; exact List.mem_cons_self _ _
  exact decDigits_not_dash hmem rfl

theorem intDigits_inj {i j : Int} (h : intDigits i = intDigits j) : i = j := by
  unfold intDigits at h
  by_cases hi : i < 0 <;> by_cases hj : j < 0
  · rw [if_pos hi, if_pos hj] at h
    have hd : decDigits i.natAbs = decDigits j.natAbs := by
      exact List.cons.inj h |>.2
    have := decDigits_inj hd
    omega
  · rw [if_pos hi, if_neg hj] at h
    exact absurd h.symm (decDigits_ne_dash_cons _ _)
  · rw [if_neg hi, if_pos hj] at h
    exact absurd h (decDigits_ne_dash_cons _ _)
  · rw [if_neg hi, if_neg hj] at h
    have := decDigits_inj h
    omega

theorem intDigits_not_pipe {i : Int} {c : Char} (hc : c ∈ intDigits i) : c ≠ '|' := by
  unfold intDigits at hc
  by_cases hi : i < 0
  · rw [if_pos hi] at hc
    rcases List.mem_cons.mp hc with hc | hc
    · subst hc; decide
    · exact decDigits_not_pipe hc
  · rw [if_neg hi] at hc
    exact decDigits_not_pipe hc

/-- Splitting a concatenation at a separator character that occurs in
neither left part determines both parts. -/
theorem pipe_split :
    ∀ (a : List Char) (b c d : List Char), '|' ∉ a → '|' ∉ c →
      a ++ '|' :: b = c ++ '|' :: d → a = c ∧ b = d := by
  intro a
  induction a with
  | nil =>
    intro b c d _ hc h
    cases c with
    | nil =>
      simp only [List.nil_append] at h
      exact ⟨rfl, (List.cons.inj h).2⟩
    | cons x xs =>
      simp only [List.nil_append, List.cons_append] at h
      have hx := (List.cons.inj h).1
      exact absurd (hx ▸ List.mem_cons_self x xs) hc
  | cons y ys ih =>
    intro b c d ha hc h
    cases c with
    | nil =>
      simp only [List.cons_append, List.nil_append] at h
      have hy := (List.cons.inj h).1
      exact absurd (hy ▸ List.mem_cons_self y ys) ha
    | cons x xs =>
      simp only [List.cons_append] at h
      have h1 := (List.cons.inj h).1
      have h2 := (List.cons.inj h).2
      have ha' : '|' ∉ ys := fun hm => ha (List.mem_cons_of_mem _ hm)
      have hc' : '|' ∉ xs := fun hm => hc (List.mem_cons_of_mem _ hm)
      obtain ⟨he, hb⟩ := ih b xs d ha' hc' h2
      exact ⟨by rw [h1, he], hb⟩

theorem makeStatusKey_data (name : String) (s : Nat) (t : Int) :
    (makeStatusKey name s t).data
      = name.data ++ '|' :: (decDigits s ++ '|' :: intDigits t) := by
  simp [makeStatusKey, pipeStr, String.data_append]

/-- Identity keys with the same name agree exactly when both the size and
the modification time agree. -/
theorem makeStatusKey_inj_iff (name : String) (s₁ s₂ : Nat) (t₁ t₂ : Int) :
    makeStatusKey name s₁ t₁ = makeStatusKey name s₂ t₂ ↔ s₁ = s₂ ∧ t₁ = t₂ := by
  constructor
  · intro h
    have hd := congrArg String.data h
    rw [makeStatusKey_data, makeStatusKey_data] at hd
    have h1 := List.append_cancel_left hd
    have h2 := (List.cons.inj h1).2
    obtain ⟨hs, ht⟩ := pipe_split (decDigits s₁) (intDigits t₁) (decDigits s₂) (intDigits t₂)
      (fun hm => decDigits_not_pipe hm rfl) (fun hm => decDigits_not_pipe hm rfl) h2
    exact ⟨decDigits_inj hs, intDigits_inj ht⟩
  · rintro ⟨rfl, rfl⟩
    rfl

/-! ### Lemmas about status-map updates -/

theorem find?_overwrite (m : StatusMap) (k : String) (v : FileStatus)
    (h : List.any m (fun p => p.1 == k) = true) :
    List.find? (fun p => p.1 == k)
      (List.map (fun p => if p.1 == k then (k, v) else p) m) = some (k, v) := by
  induction m with
  | nil => simp at h
  | cons p rest ih =>
    by_cases hp : p.1 == k
    · simp [List.find?, hp]
    · have hrest : List.any rest (fun p => p.1 == k) = true := by
        simp only [List.any_cons, hp, Bool.false_or] at h
        exact h
      simp only [List.map_cons, if_neg hp]
      rw [List.find?_cons_of_neg _ (by simpa using hp)]
      exact ih hrest

theorem find?_of_any_false (m : StatusMap) (k : String)
    (h : List.any m (fun p => p.1 == k) = false) :
    List.find? (fun p => p.1 == k) m = none := by
  rw [List.find?_eq_none]
  intro p hp
  have := List.any_eq_false.mp h p hp
  simpa using this

theorem lookupKey_setKey_self (m : StatusMap) (k : String) (v : FileStatus) :
    lookupKey (setKey m k v) k = some v := by
  unfold setKey lookupKey
  by_cases h : List.any m (fun p => p.1 == k)
  · rw [if_pos h, find?_overwrite m k v h]
    rfl
  · rw [if_neg h]
    rw [List.find?_append, find?_of_any_false m k (Bool.eq_false_iff.mpr h)]
    simp

theorem find?_map_overwrite_ne (k k' : String) (v : FileStatus) (h : k' ≠ k) :
    ∀ m : StatusMap,
      List.find? (fun p => p.1 == k') (List.map (fun p => if p.1 == k then (k, v) else p) m)
        = List.find? (fun p => p.1 == k') m := by
  intro m
  induction m with
  | nil => rfl
  | cons p rest ih =>
    simp only [List.map_cons, List.find?]
    by_cases hp : (p.1 == k) = true
    · have hpk : p.1 = k := by simpa using hp
      rw [if_pos hp]
      have h1 : (k == k') = false := beq_eq_false_iff_ne.mpr (fun hh => h hh.symm)
      have h2 : (p.1 == k') = false := by rw [hpk]; exact h1
      simp only [h1, h2]
      exact ih
    · rw [if_neg hp]
      by_cases hpk' : (p.1 == k') = true
      · simp only [hpk']
      · have h2 : (p.1 == k') = false := Bool.eq_false_iff.mpr hpk'
        simp only [h2]
        exact ih

theorem lookupKey_setKey_ne (m : StatusMap) (k : String) (v : FileStatus)
    (k' : String) (h : k' ≠ k) :
    lookupKey (setKey m k v) k' = lookupKey m k' := by
  unfold setKey lookupKey
  by_cases hany : List.any m (fun p => p.1 == k)
  · rw [if_pos hany, find?_map_overwrite_ne k k' v h m]
  · rw [if_neg hany]
    rw [List.find?_append]
    have h1 : (k == k') = false := beq_eq_false_iff_ne.mpr (fun hh => h hh.symm)
    have : List.find? (fun p => p.1 == k') [(k, v)] = none := by
      simp [List.find?, h1]
    rw [this]
    simp

theorem any_setKey_self (m : StatusMap) (k : String) (v : FileStatus) :
    List.any (setKey m k v) (fun p => p.1 == k) = true := by
  unfold setKey
  by_cases h : List.any m (fun p => p.1 == k)
  · rw [if_pos h]
    obtain ⟨p, hp, hpk⟩ := List.any_eq_true.mp h
    exact List.any_eq_true.mpr ⟨(k, v), List.mem_map.mpr ⟨p, hp, by simp [hpk]⟩, by simp⟩
  · rw [if_neg h]
    simp [List.any_append]

theorem mem_setKey_eq (m : StatusMap) (k : String) (v : FileStatus) :
    ∀ p ∈ setKey m k v, p.1 = k → p = (k, v) := by
  unfold setKey
  by_cases h : List.any m (fun p => p.1 == k) <;> intro p hp hpk
  · rw [if_pos h] at hp
    obtain ⟨q, _, hq⟩ := List.mem_map.mp hp
    by_cases hqk : q.1 == k
    · rw [if_pos hqk] at hq
      exact hq.symm
    · rw [if_neg hqk] at hq
      subst hq
      exact absurd (by simpa using hpk) hqk
  · rw [if_neg h] at hp
    rcases List.mem_append.mp hp with hp | hp
    · have := List.any_eq_false.mp (Bool.eq_false_iff.mpr h) p hp
      exact absurd (beq_iff_eq.mpr hpk) (by simpa using this)
    · simpa using hp

/-- Re-assigning the same key/value on a JavaScript object is a no-op. -/
theorem setKey_setKey_self (m : StatusMap) (k : String) (v : FileStatus) :
    setKey (setKey m k v) k v = setKey m k v := by
  conv_lhs => rw [setKey]
  rw [if_pos (any_setKey_self m k v)]
  have hid : ∀ p ∈ setKey m k v, (if p.1 == k then (k, v) else p) = id p := by
    intro p hp
    by_cases hpk : p.1 == k
    · rw [if_pos hpk, id]
      exact (mem_setKey_eq m k v p hp (by simpa using hpk)).symm
    · rw [if_neg hpk]
      rfl
  rw [List.map_congr_left hid, List.map_id]

theorem keys_setKey_nodup (m : StatusMap) (k : String) (v : FileStatus)
    (h : (m.map Prod.fst).Nodup) : ((setKey m k v).map Prod.fst).Nodup := by
  unfold setKey
  by_cases hany : List.any m (fun p => p.1 == k)
  · rw [if_pos hany, List.map_map]
    have : ∀ p ∈ m, (Prod.fst ∘ fun p => if p.1 == k then (k, v) else p) p = Prod.fst p := by
      intro p _
      by_cases hpk : p.1 == k
      · simp only [Function.comp_apply, if_pos hpk]
        exact (by simpa using hpk : p.1 = k).symm
      · simp only [Function.comp_apply, if_neg hpk]
    rw [List.map_congr_left this]
    exact h
  · rw [if_neg hany, List.map_append]
    rw [List.nodup_append]
    refine ⟨h, List.nodup_singleton k, ?_⟩
    intro x ha hb
    simp only [List.map_cons, List.map_nil, List.mem_singleton] at hb
    obtain ⟨p, hp, hpk⟩ := List.mem_map.mp ha
    have h2 := List.any_eq_false.mp (Bool.eq_false_iff.mpr hany) p hp
    have h3 : p.1 ≠ k := by simpa using h2
    exact h3 (hpk.trans hb)

/-! ### Lemmas about the marking and copy loops -/

theorem lookupKey_markStatuses_preserve (meta : String → Nat × Int) (v : FileStatus) :
    ∀ (items : List XlsxFile) (m : StatusMap) (k : String),
      lookupKey m k = some v →
      lookupKey (markStatuses m items meta v) k = some v := by
  intro items
  induction items with
  | nil => intro m k h; exact h
  | cons a rest ih =>
    intro m k h
    show lookupKey (markStatuses (setKey m (keyFor meta a) v) rest meta v) k = some v
    apply ih
    by_cases hk : k = keyFor meta a
    · subst hk; exact lookupKey_setKey_self _ _ _
    · rw [lookupKey_setKey_ne _ _ _ _ hk]; exact h

theorem lookupKey_markStatuses_mem (meta : String → Nat × Int) (v : FileStatus) :
    ∀ (items : List XlsxFile) (m : StatusMap) (i : XlsxFile), i ∈ items →
      lookupKey (markStatuses m items meta v) (keyFor meta i) = some v := by
  intro items
  induction items with
  | nil => intro m i h; exact absurd h (List.not_mem_nil i)
  | cons a rest ih =>
    intro m i h
    rcases List.mem_cons.mp h with rfl | h
    · show lookupKey (markStatuses (setKey m (keyFor meta i) v) rest meta v) (keyFor meta i)
        = some v
      exact lookupKey_markStatuses_preserve meta v rest _ _ (lookupKey_setKey_self _ _ _)
    · exact ih _ i h

theorem lookupKey_markStatuses_frame (meta : String → Nat × Int) (v : FileStatus) :
    ∀ (items : List XlsxFile) (m : StatusMap) (k : String),
      (∀ i ∈ items, k ≠ keyFor meta i) →
      lookupKey (markStatuses m items meta v) k = lookupKey m k := by
  intro items
  induction items with
  | nil => intro m k _; rfl
  | cons a rest ih =>
    intro m k h
    show lookupKey (markStatuses (setKey m (keyFor meta a) v) rest meta v) k = lookupKey m k
    rw [ih _ k (fun i hi => h i (List.mem_cons_of_mem a hi))]
    exact lookupKey_setKey_ne _ _ _ _ (h a (List.mem_cons_self a rest))

theorem copyLoop_go (c : String → Bool) :
    ∀ (items : List XlsxFile) (a b : Nat) (w : List String),
      List.foldl
        (fun acc item =>
          if c item.name then (acc.1 + 1, acc.2.1, acc.2.2 ++ [item.name])
          else (acc.1, acc.2.1 + 1, acc.2.2 ++ [item.name]))
        (a, b, w) items
      = (a + (items.filter (fun i => c i.name)).length,
         b + (items.filter (fun i => !c i.name)).length,
         w ++ items.map (fun i => i.name)) := by
  intro items
  induction items with
  | nil => intro a b w; simp
  | cons i rest ih =>
    intro a b w
    by_cases hc : c i.name
    · simp only [List.foldl_cons, if_pos hc, ih, List.filter_cons, hc, if_pos, Bool.not_true,
        List.map_cons]
      refine congrArg₂ _ ?_ (congrArg₂ _ ?_ ?_) <;> (simp [hc]; try omega)
    · simp only [List.foldl_cons, if_neg hc, ih, List.map_cons]
      refine congrArg₂ _ ?_ (congrArg₂ _ ?_ ?_)
      · simp [List.filter_cons, hc]
      · simp only [List.filter_cons]
        have : (!c i.name) = true := by simp [hc]
        rw [this]
        simp only [if_pos trivial, List.length_cons]
        omega
      · simp

theorem copyLoop_spec (c : String → Bool) (items : List XlsxFile) :
    copyLoop c items
      = ((items.filter (fun i => c i.name)).length,
         (items.filter (fun i => !c i.name)).length,
         items.map (fun i => i.name)) := by
  unfold copyLoop
  rw [copyLoop_go c items 0 0 []]
  simp

theorem filter_length_split (c : String → Bool) (items : List XlsxFile) :
    (items.filter (fun i => c i.name)).length
      + (items.filter (fun i => !c i.name)).length = items.length := by
  induction items with
  | nil => rfl
  | cons i rest ih =>
    by_cases hc : c i.name <;> simp [List.filter_cons, hc] <;> omega

/-! ### Claims -/

/-- C3: for every folder and every status map m, `Save(folder, m)`
followed by `Load(folder)` returns a map equal to m. -/
theorem claim_C3_save_load_roundtrip (dir : Sidecar) (m : StatusMap) :
    loadStatusMapFromFolder (saveStatusMapToFolder dir m) = m := rfl

/-- C3 at a concrete folder and map. -/
theorem claim_C3_witness :
    loadStatusMapFromFolder
        (saveStatusMapToFolder Sidecar.absent [(fnA, FileStatus.sent)])
      = [(fnA, FileStatus.sent)] :=
  claim_C3_save_load_roundtrip Sidecar.absent [(fnA, FileStatus.sent)]

/-- C5: computing the identity key twice from the same
(name, size, lastModified) triple gives the same string, and with the name
fixed, two keys agree exactly when both the size and the modification time
agree — so any change to either yields a different key. -/
theorem claim_C5_key_identity (name : String) (s₁ s₂ : Nat) (t₁ t₂ : Int) :
    makeStatusKey name s₁ t₁ = makeStatusKey name s₁ t₁ ∧
    (makeStatusKey name s₁ t₁ = makeStatusKey name s₂ t₂ ↔ s₁ = s₂ ∧ t₁ = t₂) :=
  ⟨rfl, makeStatusKey_inj_iff name s₁ s₂ t₁ t₂⟩

/-- C5 at concrete inputs: changing the size (100 → 200) or the time
(tJan2023 → tJun2023) changes the key. -/
theorem claim_C5_witness :
    makeStatusKey fnA 100 tJan2023 ≠ makeStatusKey fnA 200 tJan2023 ∧
    makeStatusKey fnA 100 tJan2023 ≠ makeStatusKey fnA 100 tJun2023 := by
  constructor <;> intro h
  · exact absurd ((claim_C5_key_identity fnA 100 200 tJan2023 tJan2023).2.mp h).1 (by decide)
  · exact absurd ((claim_C5_key_identity fnA 100 100 tJan2023 tJun2023).2.mp h).2 (by decide)

/-- C6 counterexample: `pickDirectory` clears the file list and the
selection before showing the prompt, so after a user cancellation the
prior list and selection are NOT left unchanged (though no error is
surfaced). -/
theorem claim_C6_counterexample :
    (pickDirectory stOne PickOutcome.cancelled metaNone).files ≠ stOne.files ∧
    (pickDirectory stOne PickOutcome.cancelled metaNone).selected ≠ stOne.selected ∧
    (pickDirectory stOne PickOutcome.cancelled metaNone).errorMsg = none := by
  refine ⟨?_, ?_, rfl⟩ <;> decide

/-- C6 amended: when the user cancels the folder-selection prompt the
operation aborts silently (no error message is surfaced) and the origin
handle is untouched, but the in-memory file list, selection and picked
folder name have already been cleared at the start of `pickDirectory`, so
they end empty rather than at their prior values. -/
theorem claim_C6_cancel_silent (st : HomeState) (meta : String → Option String) :
    (pickDirectory st PickOutcome.cancelled meta).errorMsg = none ∧
    (pickDirectory st PickOutcome.cancelled meta).files = [] ∧
    (pickDirectory st PickOutcome.cancelled meta).selected = [] ∧
    (pickDirectory st PickOutcome.cancelled meta).pickedFolderName = none ∧
    (pickDirectory st PickOutcome.cancelled meta).origin = st.origin ∧
    (pickDirectory st PickOutcome.cancelled meta).scanning = false :=
  ⟨rfl, rfl, rfl, rfl, rfl, rfl⟩

/-- C4: every scan result is sorted by modification time descending, and
the spec's concrete instance [T1=2023-01-01, T2=2023-06-01, T3=2022-01-01]
comes back ordered [T2, T1, T3]. -/
theorem claim_C4_sorted_desc :
    (∀ (entries : List DirEntry) (m : StatusMap) (meta : String → Option String),
        List.Sorted mtimeDescOrder (scanFolder entries m meta)) ∧
    scanFolder
        [⟨fnA, EntryKind.file, 100, tJan2023⟩,
         ⟨fnB, EntryKind.file, 200, tJun2023⟩,
         ⟨fnC, EntryKind.file, 50, tJan2022⟩] [] metaNone
      = [⟨fnB, 200, tJun2023, none⟩, ⟨fnA, 100, tJan2023, none⟩,
         ⟨fnC, 50, tJan2022, none⟩] := by
  constructor
  · intro entries m meta
    unfold scanFolder
    exact List.sorted_insertionSort mtimeDescOrder _
  · decide

/-- C1: a file is in the scan result exactly when it comes from a direct
entry that is a file, whose lower-cased name ends with `.xlsx`, and whose
identity key (from its current name, size and modification time) is mapped
neither to `sent` nor to `discarded` in the status map. -/
theorem claim_C1_scan_membership (entries : List DirEntry) (m : StatusMap)
    (meta : String → Option String) (f : XlsxFile) :
    f ∈ scanFolder entries m meta ↔
      ∃ e ∈ entries, e.kind = EntryKind.file
        ∧ endsWithStr (toLowerStr e.name) xlsxExt = true
        ∧ lookupKey m (makeStatusKey e.name e.size e.lastModified) ≠ some FileStatus.sent
        ∧ lookupKey m (makeStatusKey e.name e.size e.lastModified) ≠ some FileStatus.discarded
        ∧ f = ⟨e.name, e.size, e.lastModified, meta e.name⟩ := by
  unfold scanFolder
  rw [List.mem_insertionSort, List.mem_filterMap]
  constructor
  · rintro ⟨e, he, hfe⟩
    refine ⟨e, he, ?_⟩
    dsimp only at hfe
    by_cases h1 : (e.kind == EntryKind.file && endsWithStr (toLowerStr e.name) xlsxExt) = true
    · rw [if_pos h1] at hfe
      by_cases h2 : (lookupKey m (makeStatusKey e.name e.size e.lastModified)
            == some FileStatus.sent
          || lookupKey m (makeStatusKey e.name e.size e.lastModified)
            == some FileStatus.discarded) = true
      · rw [if_pos h2] at hfe
        exact absurd hfe (by simp)
      · rw [if_neg h2] at hfe
        rw [Bool.and_eq_true] at h1
        obtain ⟨hk, hx⟩ := h1
        rw [Bool.or_eq_true] at h2
        push_neg at h2
        refine ⟨by simpa using hk, hx, ?_, ?_, (Option.some.inj hfe).symm⟩
        · simpa using fun hh => h2.1 (by simp [hh])
        · simpa using fun hh => h2.2 (by simp [hh])
    · rw [if_neg h1] at hfe
      exact absurd hfe (by simp)
  · rintro ⟨e, he, hkind, hext, hs, hd, rfl⟩
    refine ⟨e, he, ?_⟩
    dsimp only
    rw [if_pos (by simp [hkind, hext]), if_neg (by simp [hs, hd])]

/-- C1 at a concrete folder: `a.xlsx` survives a scan against a status
map that records a different size for it. -/
theorem claim_C1_witness :
    xA ∈ scanFolder [⟨fnA, EntryKind.file, 100, tJan2023⟩]
        [(makeStatusKey fnA 999 tJan2023, FileStatus.sent)] metaNone :=
  (claim_C1_scan_membership
      [⟨fnA, EntryKind.file, 100, tJan2023⟩]
      [(makeStatusKey fnA 999 tJan2023, FileStatus.sent)] metaNone xA).mpr
    ⟨⟨fnA, EntryKind.file, 100, tJan2023⟩, by decide, rfl, by decide,
      by decide, by decide, rfl⟩

/-! ### Reduction lemmas for `sendFiles` and `discardFiles` -/

theorem isEmpty_false_of_ne_nil {α : Type} {l : List α} (h : l ≠ []) :
    l.isEmpty = false := by
  cases l with
  | nil => exact absurd rfl h
  | cons a l => rfl

theorem sendFiles_completed (st : HomeState) (env : SendEnv) (sc : Sidecar)
    (hsel : st.selected ≠ []) (hmatch : selectedItems st ≠ [])
    (hpick : env.destPick = DestPick.ok) (hperm : env.perm ≠ PermResult.denied)
    (horig : st.origin = some sc) (hsave : env.saveOk = true) :
    sendFiles st env =
      ({ st with
          origin := some (Sidecar.stored
            (markStatuses (loadStatusMapFromFolder sc) (selectedItems st)
              env.meta FileStatus.sent)),
          files := st.files.filter (fun f => !st.selected.contains f.name),
          selected := [] },
       ⟨SendOutcome.completed,
        ((selectedItems st).filter (fun i => env.copyOk i.name)).length,
        ((selectedItems st).filter (fun i => !env.copyOk i.name)).length,
        (selectedItems st).map (fun i => i.name)⟩) := by
  have h1 := isEmpty_false_of_ne_nil hsel
  have h2 := isEmpty_false_of_ne_nil hmatch
  unfold sendFiles
  rw [hpick, horig, hsave]
  simp only [selectedItems] at h2 ⊢
  rw [h1]
  simp only [Bool.false_eq_true, if_false, h2, if_neg hperm, copyLoop_spec, if_true,
    saveStatusMapToFolder]

theorem sendFiles_saveFailed (st : HomeState) (env : SendEnv) (sc : Sidecar)
    (hsel : st.selected ≠ []) (hmatch : selectedItems st ≠ [])
    (hpick : env.destPick = DestPick.ok) (hperm : env.perm ≠ PermResult.denied)
    (horig : st.origin = some sc) (hsave : env.saveOk = false) :
    sendFiles st env =
      (st,
       ⟨SendOutcome.errorCaught,
        ((selectedItems st).filter (fun i => env.copyOk i.name)).length,
        ((selectedItems st).filter (fun i => !env.copyOk i.name)).length,
        (selectedItems st).map (fun i => i.name)⟩) := by
  have h1 := isEmpty_false_of_ne_nil hsel
  have h2 := isEmpty_false_of_ne_nil hmatch
  unfold sendFiles
  rw [hpick, horig, hsave]
  simp only [selectedItems] at h2 ⊢
  rw [h1]
  simp only [Bool.false_eq_true, if_false, h2, if_neg hperm, copyLoop_spec]

theorem discardFiles_completed (st : HomeState) (env : DiscardEnv) (sc : Sidecar)
    (hsel : st.selected ≠ []) (hmatch : selectedItems st ≠ [])
    (horig : st.origin = some sc) (hsave : env.saveOk = true) :
    discardFiles st env =
      ({ st with
          origin := some (Sidecar.stored
            (markStatuses (loadStatusMapFromFolder sc) (selectedItems st)
              env.meta FileStatus.discarded)),
          files := st.files.filter (fun f => !st.selected.contains f.name),
          selected := [] },
       DiscardOutcome.completed) := by
  have h1 := isEmpty_false_of_ne_nil hsel
  have h2 := isEmpty_false_of_ne_nil hmatch
  unfold discardFiles
  rw [horig, hsave]
  simp only [selectedItems] at h2 ⊢
  rw [h1]
  simp only [Bool.false_eq_true, if_false, h2, if_true, saveStatusMapToFolder]

theorem discardFiles_saveFailed (st : HomeState) (env : DiscardEnv) (sc : Sidecar)
    (hsel : st.selected ≠ []) (hmatch : selectedItems st ≠ [])
    (horig : st.origin = some sc) (hsave : env.saveOk = false) :
    discardFiles st env = (st, DiscardOutcome.errorCaught) := by
  have h1 := isEmpty_false_of_ne_nil hsel
  have h2 := isEmpty_false_of_ne_nil hmatch
  unfold discardFiles
  rw [horig, hsave]
  simp only [selectedItems] at h2 ⊢
  rw [h1]
  simp only [Bool.false_eq_true, if_false, h2]

/-! ### Claims about send and discard -/

/-- C2: on a send over a non-empty selection that reaches the copy loop
and whose sidecar save succeeds, the reported counts are the number of
successful and of failed copies, every selected item is attempted (no
failure aborts the loop, so ok + fail covers the whole selection), and
afterwards every attempted item's identity key — including the ones whose
copy failed — is mapped to `sent` in the stored sidecar map. -/
theorem claim_C2_send_counts_and_marks (st : HomeState) (env : SendEnv) (sc : Sidecar)
    (hsel : st.selected ≠ []) (hmatch : selectedItems st ≠ [])
    (hpick : env.destPick = DestPick.ok) (hperm : env.perm ≠ PermResult.denied)
    (horig : st.origin = some sc) (hsave : env.saveOk = true) :
    (sendFiles st env).2.outcome = SendOutcome.completed ∧
    (sendFiles st env).2.ok
      = ((selectedItems st).filter (fun i => env.copyOk i.name)).length ∧
    (sendFiles st env).2.fail
      = ((selectedItems st).filter (fun i => !env.copyOk i.name)).length ∧
    (sendFiles st env).2.ok + (sendFiles st env).2.fail = (selectedItems st).length ∧
    (sendFiles st env).2.attempted = (selectedItems st).map (fun i => i.name) ∧
    ∃ m', (sendFiles st env).1.origin = some (Sidecar.stored m') ∧
      ∀ i ∈ selectedItems st, lookupKey m' (keyFor env.meta i) = some FileStatus.sent := by
  rw [sendFiles_completed st env sc hsel hmatch hpick hperm horig hsave]
  refine ⟨rfl, rfl, rfl, filter_length_split env.copyOk (selectedItems st), rfl, ?_⟩
  refine ⟨_, rfl, ?_⟩
  intro i hi
  exact lookupKey_markStatuses_mem env.meta FileStatus.sent (selectedItems st) _ i hi

/-- C2 at the spec's concrete scenario: send of 2 selected entries where
the copy fails for one gives counts 1 and 1, and both entries are marked
`sent` in the sidecar. -/
theorem claim_C2_witness :
    (sendFiles stTwo envSendHalf).2.outcome = SendOutcome.completed ∧
    (sendFiles stTwo envSendHalf).2.ok = 1 ∧
    (sendFiles stTwo envSendHalf).2.fail = 1 ∧
    ∃ m', (sendFiles stTwo envSendHalf).1.origin = some (Sidecar.stored m') ∧
      ∀ i ∈ selectedItems stTwo,
        lookupKey m' (keyFor envSendHalf.meta i) = some FileStatus.sent := by
  obtain ⟨h1, h2, h3, _, _, hm⟩ := claim_C2_send_counts_and_marks stTwo envSendHalf
    Sidecar.absent (by decide) (by decide) rfl (by decide) rfl rfl
  refine ⟨h1, ?_, ?_, hm⟩
  · rw [h2]; decide
  · rw [h3]; decide

/-- C7 counterexample: when the sidecar save fails during send or discard
the in-memory removal and selection-clearing are NOT "already made": they
come after the save and are skipped, so the list and the selection still
hold the processed entries. -/
theorem claim_C7_counterexample :
    (sendFiles stOne envSendSaveFail).1.files = stOne.files ∧
    (sendFiles stOne envSendSaveFail).1.selected = stOne.selected ∧
    (discardFiles stOne envDiscSaveFail).1.files = stOne.files ∧
    stOne.files ≠ [] ∧ stOne.selected ≠ [] := by
  refine ⟨?_, ?_, ?_, ?_, ?_⟩ <;> decide

/-- C7 amended: when the sidecar save throws during send or discard, the
error lands in the same generic catch as any other failure (no distinct
"status not persisted" condition, no retry), and the removal of processed
entries from the list and the clearing of the selection — which come after
the save — are skipped entirely, so the whole in-memory state is
unchanged. -/
theorem claim_C7_save_failure_state (st : HomeState) (senv : SendEnv)
    (denv : DiscardEnv) (sc : Sidecar)
    (hsel : st.selected ≠ []) (hmatch : selectedItems st ≠ [])
    (hpick : senv.destPick = DestPick.ok) (hperm : senv.perm ≠ PermResult.denied)
    (horig : st.origin = some sc)
    (hssave : senv.saveOk = false) (hdsave : denv.saveOk = false) :
    (sendFiles st senv).1 = st ∧
    (sendFiles st senv).2.outcome = SendOutcome.errorCaught ∧
    (discardFiles st denv).1 = st ∧
    (discardFiles st denv).2 = DiscardOutcome.errorCaught := by
  rw [sendFiles_saveFailed st senv sc hsel hmatch hpick hperm horig hssave,
      discardFiles_saveFailed st denv sc hsel hmatch horig hdsave]
  exact ⟨rfl, rfl, rfl, rfl⟩

/-- C7 amended claim at a concrete state and environments. -/
theorem claim_C7_witness :
    (sendFiles stOne envSendSaveFail).1 = stOne ∧
    (sendFiles stOne envSendSaveFail).2.outcome = SendOutcome.errorCaught ∧
    (discardFiles stOne envDiscSaveFail).1 = stOne ∧
    (discardFiles stOne envDiscSaveFail).2 = DiscardOutcome.errorCaught :=
  claim_C7_save_failure_state stOne envSendSaveFail envDiscSaveFail Sidecar.absent
    (by decide) (by decide) rfl (by decide) rfl rfl rfl

/-- C8: when destination write permission is denied the whole send is
aborted before any copy attempt: no item is attempted (so nothing is
written to the destination) and the component state — including the origin
sidecar, hence the status map — is unchanged. -/
theorem claim_C8_perm_denied_aborts (st : HomeState) (env : SendEnv)
    (hperm : env.perm = PermResult.denied) :
    (sendFiles st env).1 = st ∧ (sendFiles st env).2.attempted = [] := by
  unfold sendFiles
  simp only [hperm, if_true]
  repeat' split
  all_goals exact ⟨rfl, rfl⟩

/-- C8 at a concrete state and environment. -/
theorem claim_C8_witness :
    (sendFiles stOne envSendDenied).1 = stOne ∧
    (sendFiles stOne envSendDenied).2.attempted = [] :=
  claim_C8_perm_denied_aborts stOne envSendDenied rfl

theorem sendFiles_origin_cases (st : HomeState) (env : SendEnv) :
    (sendFiles st env).1.origin = st.origin ∨
    ∃ sc, st.origin = some sc ∧
      (sendFiles st env).1.origin = some (Sidecar.stored
        (markStatuses (loadStatusMapFromFolder sc) (selectedItems st)
          env.meta FileStatus.sent)) := by
  unfold sendFiles
  dsimp only
  repeat' split
  all_goals try (exact Or.inl rfl)
  exact Or.inr ⟨_, by assumption, rfl⟩

theorem discardFiles_origin_cases (st : HomeState) (env : DiscardEnv) :
    (discardFiles st env).1.origin = st.origin ∨
    ∃ sc, st.origin = some sc ∧
      (discardFiles st env).1.origin = some (Sidecar.stored
        (markStatuses (loadStatusMapFromFolder sc) (selectedItems st)
          env.meta FileStatus.discarded)) := by
  unfold discardFiles
  dsimp only
  repeat' split
  all_goals try (exact Or.inl rfl)
  exact Or.inr ⟨_, by assumption, rfl⟩

/-- C9: send and discard only write the selected items' keys: whatever
sidecar map they store, any key different from every selected item's key
keeps exactly the value it had in the loaded origin map. -/
theorem claim_C9_frame (st : HomeState) (senv : SendEnv) (denv : DiscardEnv)
    (sc : Sidecar) (k : String)
    (horig : st.origin = some sc)
    (hks : ∀ i ∈ selectedItems st, k ≠ keyFor senv.meta i)
    (hkd : ∀ i ∈ selectedItems st, k ≠ keyFor denv.meta i) :
    (∀ m', (sendFiles st senv).1.origin = some (Sidecar.stored m') →
        lookupKey m' k = lookupKey (loadStatusMapFromFolder sc) k) ∧
    (∀ m', (discardFiles st denv).1.origin = some (Sidecar.stored m') →
        lookupKey m' k = lookupKey (loadStatusMapFromFolder sc) k) := by
  constructor
  · intro m' hm'
    rcases sendFiles_origin_cases st senv with h | ⟨sc', hsc', h⟩
    · rw [h, horig] at hm'
      rw [Option.some.inj hm']
      rfl
    · rw [horig] at hsc'
      obtain rfl := Option.some.inj hsc'
      rw [h] at hm'
      have hmm := Sidecar.stored.inj (Option.some.inj hm')
      rw [← hmm]
      exact lookupKey_markStatuses_frame senv.meta FileStatus.sent (selectedItems st) _ k hks
  · intro m' hm'
    rcases discardFiles_origin_cases st denv with h | ⟨sc', hsc', h⟩
    · rw [h, horig] at hm'
      rw [Option.some.inj hm']
      rfl
    · rw [horig] at hsc'
      obtain rfl := Option.some.inj hsc'
      rw [h] at hm'
      have hmm := Sidecar.stored.inj (Option.some.inj hm')
      rw [← hmm]
      exact lookupKey_markStatuses_frame denv.meta FileStatus.discarded (selectedItems st) _ k hkd

/-- C9 at a concrete input: a key recorded for another file keeps its
value through a send and a discard over a selection not containing it. -/
theorem claim_C9_witness :
    (∀ m', (sendFiles stOne envSendHalf).1.origin = some (Sidecar.stored m') →
        lookupKey m' (makeStatusKey fnB 200 tJun2023)
          = lookupKey (loadStatusMapFromFolder Sidecar.absent) (makeStatusKey fnB 200 tJun2023)) ∧
    (∀ m', (discardFiles stOne envDiscOk).1.origin = some (Sidecar.stored m') →
        lookupKey m' (makeStatusKey fnB 200 tJun2023)
          = lookupKey (loadStatusMapFromFolder Sidecar.absent) (makeStatusKey fnB 200 tJun2023)) :=
  claim_C9_frame stOne envSendHalf envDiscOk Sidecar.absent
    (makeStatusKey fnB 200 tJun2023) rfl (by decide) (by decide)

/-- C10: discarding the same entry twice — a second batch, from any later
state whose sidecar is the one the first discard stored and in which the
same entry is listed and selected again — stores the same sidecar map as
discarding it once; that map holds the entry's key mapped to `discarded`,
and key uniqueness is preserved (no duplicate entry). -/
theorem claim_C10_discard_idempotent (st st' : HomeState) (env : DiscardEnv)
    (e : XlsxFile) (sc : Sidecar)
    (horig : st.origin = some sc) (hsel : st.selected = [e.name])
    (hfiles : st.files = [e]) (hsave : env.saveOk = true)
    (horig' : st'.origin = (discardFiles st env).1.origin)
    (hsel' : st'.selected = [e.name]) (hfiles' : st'.files = [e]) :
    ∃ m1,
      (discardFiles st env).1.origin = some (Sidecar.stored m1) ∧
      (discardFiles st' env).1.origin = some (Sidecar.stored m1) ∧
      lookupKey m1 (keyFor env.meta e) = some FileStatus.discarded ∧
      (((loadStatusMapFromFolder sc).map Prod.fst).Nodup → (m1.map Prod.fst).Nodup) := by
  have hselne : st.selected ≠ [] := by rw [hsel]; exact List.cons_ne_nil _ _
  have hmatch : selectedItems st = [e] := by
    unfold selectedItems
    rw [hfiles, hsel]
    simp [List.contains]
  have hd1 := discardFiles_completed st env sc hselne (by rw [hmatch]; exact List.cons_ne_nil _ _)
    horig hsave
  have hm1 : markStatuses (loadStatusMapFromFolder sc) (selectedItems st) env.meta
      FileStatus.discarded
      = setKey (loadStatusMapFromFolder sc) (keyFor env.meta e) FileStatus.discarded := by
    rw [hmatch]
    rfl
  have hmatch' : selectedItems st' = [e] := by
    unfold selectedItems
    rw [hfiles', hsel']
    simp [List.contains]
  rw [hd1] at horig'
  have hd2 := discardFiles_completed st' env
    (Sidecar.stored (markStatuses (loadStatusMapFromFolder sc) (selectedItems st)
      env.meta FileStatus.discarded))
    (by rw [hsel']; exact List.cons_ne_nil _ _)
    (by rw [hmatch']; exact List.cons_ne_nil _ _)
    horig' hsave
  refine ⟨setKey (loadStatusMapFromFolder sc) (keyFor env.meta e) FileStatus.discarded,
    ?_, ?_, lookupKey_setKey_self _ _ _, fun h => keys_setKey_nodup _ _ _ h⟩
  · rw [hd1, ← hm1]
  · rw [hd2]
    show some (Sidecar.stored (markStatuses
      (markStatuses (loadStatusMapFromFolder sc) (selectedItems st) env.meta
        FileStatus.discarded) (selectedItems st') env.meta FileStatus.discarded)) = _
    rw [hmatch', hm1]
    show some (Sidecar.stored (setKey
      (setKey (loadStatusMapFromFolder sc) (keyFor env.meta e) FileStatus.discarded)
      (keyFor env.meta e) FileStatus.discarded)) = _
    rw [setKey_setKey_self]

/-- C10 at a concrete entry and folder: the second batch runs from the
state the first discard produced, with the entry re-listed and
re-selected. -/
theorem claim_C10_witness :
    ∃ m1,
      (discardFiles stOne envDiscOk).1.origin = some (Sidecar.stored m1) ∧
      (discardFiles
          { scanning := false, errorMsg := none, pickedFolderName := some fnC,
            files := [xA], selected := [fnA],
            origin := (discardFiles stOne envDiscOk).1.origin }
          envDiscOk).1.origin = some (Sidecar.stored m1) ∧
      lookupKey m1 (keyFor envDiscOk.meta xA) = some FileStatus.discarded ∧
      (((loadStatusMapFromFolder Sidecar.absent).map Prod.fst).Nodup →
        (m1.map Prod.fst).Nodup) :=
  claim_C10_discard_idempotent stOne
    { scanning := false, errorMsg := none, pickedFolderName := some fnC,
      files := [xA], selected := [fnA],
      origin := (discardFiles stOne envDiscOk).1.origin }
    envDiscOk xA Sidecar.absent rfl rfl rfl rfl rfl rfl rfl

end XlsxSender
